import Mathlib

/-!
Verification of the octomatch order-matching engine core: a shallow embedding
of src/src/core/{types,model,pqueue,orderbook,matcher,router}.rs, followed by
theorems settling the specification's claims about it.

Modelling conventions:
* `rust_decimal::Decimal` prices are modelled as `Int` (exact scaled decimal
  arithmetic; the code only compares and subtracts prices, operations that an
  order-embedding of scaled decimals into the integers preserves).
* `u64` quantities and `u128` timestamps are modelled as `Nat`; the only
  subtraction the code performs on them is guarded by a strict comparison, so
  no wrap-around arises.
* `Uuid` order ids are opaque 128-bit tokens; modelled as `Nat`.
* `HashMap` is modelled as an association list used only through map-like
  operations (lookup first binding, insert-overwrite, remove-key).
-/

namespace Octomatch

/-! The source's scalar type aliases are mapped directly onto Lean types:
`Nat` (= `Uuid`) and `Nat` (= `u64`) and `Nat` (= `u128`)
become `Nat`, and `rust_decimal::Decimal` prices become `Int` (exact scaled
decimal arithmetic). -/

/-- src/src/core/types.rs `Asset`. -/
inductive Asset
  | BTC
  | ETH
  | USDT
  | USDC
  | DOT
deriving DecidableEq

/-- src/src/core/types.rs `OrderSide`. -/
inductive OrderSide
  | Bid
  | Ask
deriving DecidableEq

/-- src/src/core/types.rs `OrderType`. -/
inductive OrderType
  | Market
  | Limit
  | Stop
deriving DecidableEq

/-- src/src/core/types.rs `OrderStatus`. -/
inductive OrderStatus
  | Created
  | Filled
  | PartialFill
  | Canceled
  | Rejected
  | Expired
deriving DecidableEq

/-- src/src/core/types.rs `Failure`. -/
inductive Failure
  | EngineOverCapacity
  | InvalidOrderForBook
  | OrderNotFound (msg : String)
  | BookNotFound (msg : String)
  | OrderRejected (msg : String)
  | UnsupportedOperation (msg : String)
  | InvalidTradingPair (msg : String)
deriving DecidableEq

/-- src/src/core/types.rs `Trade`. -/
structure Trade where
  orderid : Nat
  side : OrderSide
  price : Int
  status : OrderStatus
  quantity : Nat
  timestamp : Nat
deriving DecidableEq

/-- src/src/core/model.rs `TradingPair`. -/
structure TradingPair where
  order_asset : Asset
  price_asset : Asset
deriving DecidableEq

/-- src/src/core/model.rs `TradingPair::from`. -/
def TradingPair.from (order_asset price_asset : Asset) : TradingPair :=
  ⟨order_asset, price_asset⟩

/-- src/src/core/model.rs `TradingPair::validate`. -/
def TradingPair.validate (tp : TradingPair) : Option Failure :=
  if tp.order_asset = tp.price_asset then
    some (Failure.OrderRejected
      "Trading pair must be different for price and order asset type")
  else
    none

/-- src/src/core/model.rs `Order`. -/
structure Order where
  orderid : Nat
  price : Int
  quantity : Nat
  side : OrderSide
  order_type : OrderType
  timestamp : Nat
  trading_pair : TradingPair
deriving DecidableEq

/-- src/src/core/model.rs `OrderKey`. -/
structure OrderKey where
  orderid : Nat
  price : Int
  side : OrderSide
  timestamp : Nat
deriving DecidableEq

/-- src/src/core/model.rs `Order::to_key`. -/
def Order.to_key (o : Order) : OrderKey :=
  ⟨o.orderid, o.price, o.side, o.timestamp⟩

/-- src/src/core/model.rs `impl Ord for OrderKey`: for Bids a higher price is
greater, for Asks a lower price is greater; at equal prices the comparison is
`other.timestamp.cmp(&self.timestamp)`, so an earlier timestamp is greater. -/
def OrderKey.cmp (self other : OrderKey) : Ordering :=
  if other.price < self.price then
    match self.side with
    | OrderSide.Bid => Ordering.gt
    | OrderSide.Ask => Ordering.lt
  else if self.price < other.price then
    match self.side with
    | OrderSide.Bid => Ordering.lt
    | OrderSide.Ask => Ordering.gt
  else
    compare other.timestamp self.timestamp

/-- src/src/core/model.rs `Event`. -/
structure Event where
  status : OrderStatus
  orderid : Nat
  at_price : String
deriving DecidableEq

/-! ## The price-time priority queue of order keys

src/src/core/orderbook.rs stores `PriceTimePriorityOrderQueue<OrderKey>`, the
key-element revision of the queue, generic over `Keyable` (imported by
src/src/core/model.rs). That revision's source file is not in the repository
snapshot: src/src/core/pqueue.rs holds an earlier, non-generic revision whose
elements are whole `Order`s. The queue below is therefore modelled from the
spec (section 4.1) with the ordering relation taken from the source
(`OrderKey.cmp` above): a max-heap of keys supporting push, peek (a maximal
element), pop and remove-by-id. -/

/-- The maximal key of `k :: ks` under `OrderKey.cmp` (the element a max-heap
of those keys yields at its top). -/
def maxKey (k : OrderKey) (ks : List OrderKey) : OrderKey :=
  ks.foldl (fun acc x => if OrderKey.cmp x acc = Ordering.gt then x else acc) k

/-- Modelled from the spec: `push(key)` inserts a key into the heap. -/
def qpush (k : OrderKey) (q : List OrderKey) : List OrderKey :=
  k :: q

/-- Modelled from the spec: `peek()` returns a maximal element of the heap
without removing it, or nothing when the heap is empty. -/
def qpeek : List OrderKey → Option OrderKey
  | [] => none
  | k :: ks => some (maxKey k ks)

/-- Modelled from the spec: `pop()` removes and returns a maximal element. -/
def qpop (q : List OrderKey) : Option OrderKey × List OrderKey :=
  match qpeek q with
  | none => (none, q)
  | some k => (some k, q.eraseP (fun x => decide (x = k)))

/-- Modelled from the spec: `remove(key)` removes by id-equality (the
non-generic revision in src/src/core/pqueue.rs likewise retains exactly the
elements whose orderid differs). -/
def qremove (k : OrderKey) (q : List OrderKey) : List OrderKey :=
  q.filter (fun x => decide (x.orderid ≠ k.orderid))

/-! ## The order index (`HashMap<OrderId, Order>`) -/

/-- `HashMap::get`: the binding of `i`, if any. -/
def lookupOrder (orders : List (Nat × Order)) (i : Nat) : Option Order :=
  match orders.find? (fun p => decide (p.1 = i)) with
  | some p => some p.2
  | none => none

/-- `HashMap::remove`: drop the binding of `i`. -/
def eraseOrder (orders : List (Nat × Order)) (i : Nat) :
    List (Nat × Order) :=
  orders.filter (fun p => decide (p.1 ≠ i))

/-- `HashMap::insert`: bind `i` to `o`, overwriting any previous binding. -/
def insertOrder (i : Nat) (o : Order) (orders : List (Nat × Order)) :
    List (Nat × Order) :=
  (i, o) :: eraseOrder orders i

/-! ## The limit order book (src/src/core/orderbook.rs) -/

/-- src/src/core/orderbook.rs `LimitOrderBook`. -/
structure LimitOrderBook where
  trading_pair : TradingPair
  bids : List OrderKey
  asks : List OrderKey
  orders : List (Nat × Order)
deriving DecidableEq

/-- src/src/core/orderbook.rs `LimitOrderBook::init`. -/
def LimitOrderBook.init (trading_pair : TradingPair) : LimitOrderBook :=
  ⟨trading_pair, [], [], []⟩

/-- src/src/core/orderbook.rs `LimitOrderBook::cancel`. -/
def LimitOrderBook.cancel (b : LimitOrderBook) (orderid : Nat) :
    Except Failure Event × LimitOrderBook :=
  match lookupOrder b.orders orderid with
  | some order =>
    let b1 := { b with orders := eraseOrder b.orders orderid }
    let b2 :=
      match order.side with
      | OrderSide.Bid => { b1 with bids := qremove order.to_key b1.bids }
      | OrderSide.Ask => { b1 with asks := qremove order.to_key b1.asks }
    (Except.ok ⟨OrderStatus.Canceled, orderid, ""⟩, b2)
  | none =>
    (Except.error (Failure.OrderNotFound "No order found with the given id"), b)

/-- src/src/core/orderbook.rs `LimitOrderBook::place`. -/
def LimitOrderBook.place (b : LimitOrderBook) (order : Order) :
    Except Failure Event × LimitOrderBook :=
  if order.order_type = OrderType.Market then
    (Except.error (Failure.OrderRejected
      "Only limit orders can be placed in the orderbook"), b)
  else if b.trading_pair ≠ order.trading_pair then
    (Except.error Failure.InvalidOrderForBook, b)
  else
    let b1 := { b with orders := insertOrder order.orderid order b.orders }
    let b2 :=
      match order.side with
      | OrderSide.Bid => { b1 with bids := qpush order.to_key b1.bids }
      | OrderSide.Ask => { b1 with asks := qpush order.to_key b1.asks }
    (Except.ok ⟨OrderStatus.Created, order.orderid, ""⟩, b2)

/-- src/src/core/orderbook.rs `LimitOrderBook::get_spread`: note the source
computes `bid.price - ask.price`. -/
def LimitOrderBook.get_spread (b : LimitOrderBook) : Option Int :=
  match qpeek b.bids with
  | some bid =>
    match qpeek b.asks with
    | some ask => some (bid.price - ask.price)
    | none => none
  | none => none

/-- src/src/core/orderbook.rs `LimitOrderBook::peek_top_ask`. -/
def LimitOrderBook.peek_top_ask (b : LimitOrderBook) : Option Order :=
  match qpeek b.asks with
  | some key => lookupOrder b.orders key.orderid
  | none => none

/-- src/src/core/orderbook.rs `LimitOrderBook::peek_top_bid`. -/
def LimitOrderBook.peek_top_bid (b : LimitOrderBook) : Option Order :=
  match qpeek b.bids with
  | some key => lookupOrder b.orders key.orderid
  | none => none

/-- src/src/core/orderbook.rs `LimitOrderBook::modify_quantity`. -/
def LimitOrderBook.modify_quantity (b : LimitOrderBook) (orderid : Nat)
    (quantity : Nat) : LimitOrderBook :=
  { b with
    orders := b.orders.map (fun p =>
      if p.1 = orderid then (p.1, { p.2 with quantity := quantity }) else p) }

/-- src/src/core/orderbook.rs `LimitOrderBook::pop_top_bid`. -/
def LimitOrderBook.pop_top_bid (b : LimitOrderBook) :
    Option Order × LimitOrderBook :=
  match qpop b.bids with
  | (some key, rest) =>
    (lookupOrder b.orders key.orderid,
     { b with bids := rest, orders := eraseOrder b.orders key.orderid })
  | (none, _) => (none, b)

/-- src/src/core/orderbook.rs `LimitOrderBook::pop_top_ask`. -/
def LimitOrderBook.pop_top_ask (b : LimitOrderBook) :
    Option Order × LimitOrderBook :=
  match qpop b.asks with
  | (some key, rest) =>
    (lookupOrder b.orders key.orderid,
     { b with asks := rest, orders := eraseOrder b.orders key.orderid })
  | (none, _) => (none, b)

/-! ## The matcher (src/src/core/matcher.rs) -/

/-- src/src/core/matcher.rs `MatchState`. -/
inductive MatchState
  | Full
  | Partial
  | NoMatch
deriving DecidableEq

/-- src/src/core/matcher.rs `Match<T>` at the engine's only instantiation,
`T = Trade`. The source names the trade-list field `matches`; that word is
reserved in Lean, so the field is named `trades` here. -/
structure Match where
  trades : List Trade
  state : MatchState
  qty_left : Nat
deriving DecidableEq

/-- src/src/core/matcher.rs `Match::new`. -/
def Match.new : Match :=
  ⟨[], MatchState.NoMatch, 0⟩

/-- src/src/core/matcher.rs `Match::add_match` (a Vec push). -/
def Match.add_match (m : Match) (trade : Trade) : Match :=
  { m with trades := m.trades ++ [trade] }

/-- src/src/core/matcher.rs `Match::update_state`: entering Full or NoMatch
resets the quantity left to 0, entering Partial leaves it alone. -/
def Match.update_state (m : Match) (state : MatchState) : Match :=
  match state with
  | MatchState.Full => { m with qty_left := 0, state := state }
  | MatchState.NoMatch => { m with qty_left := 0, state := state }
  | MatchState.Partial => { m with state := state }

/-- src/src/core/matcher.rs `Match::update_qty_left`. -/
def Match.update_qty_left (m : Match) (qty : Nat) : Match :=
  { m with qty_left := qty }

/-- src/src/core/matcher.rs `Matcher::get_opposite_order`. -/
def Matcher.get_opposite_order (side : OrderSide) (orderbook : LimitOrderBook) :
    Option Order :=
  match side with
  | OrderSide.Bid => orderbook.peek_top_ask
  | OrderSide.Ask => orderbook.peek_top_bid

/-- src/src/core/matcher.rs `Matcher::is_within_price_limit`. -/
def Matcher.is_within_price_limit (order opp_order : Order) : Bool :=
  match order.side with
  | OrderSide.Bid => decide (order.price ≥ opp_order.price)
  | OrderSide.Ask => decide (order.price ≤ opp_order.price)

/-- The pop-the-filled-top-then-peek block of `Matcher::do_match`'s
greater-quantity arm (`let some_order = match incoming_order.side ...`):
pop the consumed opposite top, then peek the new opposite top. -/
def popPeekOpp (side : OrderSide) (b : LimitOrderBook) :
    LimitOrderBook × Option Order :=
  match side with
  | OrderSide.Bid =>
    let b1 := (b.pop_top_ask).2
    (b1, b1.peek_top_ask)
  | OrderSide.Ask =>
    let b1 := (b.pop_top_bid).2
    (b1, b1.peek_top_bid)

/-- The number of keys on the side of `b` opposite to `side`: the termination
measure of `Matcher.do_match` (each recursive step pops one opposite key). -/
def oppLen (side : OrderSide) (b : LimitOrderBook) : Nat :=
  match side with
  | OrderSide.Bid => b.asks.length
  | OrderSide.Ask => b.bids.length

/-- src/src/core/matcher.rs `Matcher::do_match`: the crossing primitive.
Compares the incoming and opposite quantities; in the strictly-greater case it
pops the consumed opposite top and recurses on the next one. -/
def Matcher.do_match (incoming_order opposite_order : Order)
    (orderbook : LimitOrderBook) (ms : Match) : LimitOrderBook × Match :=
  if incoming_order.quantity < opposite_order.quantity then
    let ms := ms.add_match
      ⟨incoming_order.orderid, incoming_order.side, opposite_order.price,
       OrderStatus.Filled, incoming_order.quantity, 0⟩
    let ms := ms.add_match
      ⟨opposite_order.orderid, opposite_order.side, opposite_order.price,
       OrderStatus.PartialFill, incoming_order.quantity, 0⟩
    let orderbook := orderbook.modify_quantity opposite_order.orderid
      (opposite_order.quantity - incoming_order.quantity)
    (orderbook, ms.update_state MatchState.Full)
  else if incoming_order.quantity > opposite_order.quantity then
    let ms := ms.add_match
      ⟨incoming_order.orderid, incoming_order.side, opposite_order.price,
       OrderStatus.PartialFill, opposite_order.quantity, 0⟩
    let ms := ms.add_match
      ⟨opposite_order.orderid, opposite_order.side, opposite_order.price,
       OrderStatus.Filled, opposite_order.quantity, 0⟩
    let incoming_order1 :=
      { incoming_order with
        quantity := incoming_order.quantity - opposite_order.quantity }
    let ms := ms.update_qty_left incoming_order1.quantity
    let ms := ms.update_state MatchState.Partial
    match hpp : popPeekOpp incoming_order.side orderbook with
    | (orderbook1, some opposite) =>
      Matcher.do_match incoming_order1 opposite orderbook1 ms
    | (orderbook1, none) => (orderbook1, ms)
  else
    let ms := ms.add_match
      ⟨incoming_order.orderid, incoming_order.side, opposite_order.price,
       OrderStatus.Filled, incoming_order.quantity, 0⟩
    let ms := ms.add_match
      ⟨opposite_order.orderid, opposite_order.side, opposite_order.price,
       OrderStatus.Filled, opposite_order.quantity, 0⟩
    let ms := ms.update_state MatchState.Full
    let orderbook :=
      match incoming_order.side with
      | OrderSide.Bid => (orderbook.pop_top_ask).2
      | OrderSide.Ask => (orderbook.pop_top_bid).2
    (orderbook, ms)
termination_by oppLen incoming_order.side orderbook
decreasing_by
  show oppLen incoming_order.side orderbook1 < oppLen incoming_order.side orderbook
  have hfold : ∀ (xs : List OrderKey) (a : OrderKey),
      xs.foldl (fun acc x => if OrderKey.cmp x acc = Ordering.gt then x else acc) a
        ∈ a :: xs := by
    intro xs
    induction xs with
    | nil => intro a; simp
    | cons x xs ih =>
      intro a
      simp only [List.foldl_cons]
      have h := ih (if OrderKey.cmp x a = Ordering.gt then x else a)
      rcases List.mem_cons.mp h with h1 | h1
      · rw [h1]
        by_cases hc : OrderKey.cmp x a = Ordering.gt
        · simp [hc, List.mem_cons]
        · simp [hc, List.mem_cons]
      · simp [List.mem_cons, h1]
  have hlen : ∀ (q : List OrderKey) (k : OrderKey), qpeek q = some k →
      (q.eraseP (fun x => decide (x = k))).length < q.length := by
    intro q k hq
    have hm : k ∈ q := by
      cases q with
      | nil => simp [qpeek] at hq
      | cons a as =>
        simp only [qpeek, Option.some.injEq] at hq
        rw [← hq]
        exact hfold as a
    have : (q.eraseP (fun x => decide (x = k))).length = q.length - 1 :=
      List.length_eraseP_of_mem hm (by simp)
    have hpos : 0 < q.length := List.length_pos.mpr (by rintro rfl; simp at hm)
    omega
  have key : ∀ (s : OrderSide) (b0 b2 : LimitOrderBook) (opp : Order),
      popPeekOpp s b0 = (b2, some opp) → oppLen s b2 < oppLen s b0 := by
    intro s b0 b2 opp hp
    obtain ⟨tp, bids, asks, orders⟩ := b0
    cases s with
    | Bid =>
      cases asks with
      | nil =>
        rw [popPeekOpp, Prod.mk.injEq] at hp
        obtain ⟨-, h2⟩ := hp
        simp [LimitOrderBook.pop_top_ask, qpop, qpeek,
          LimitOrderBook.peek_top_ask] at h2
      | cons a as =>
        rw [popPeekOpp, Prod.mk.injEq] at hp
        obtain ⟨h1, -⟩ := hp
        rw [← h1]
        simp only [LimitOrderBook.pop_top_ask, qpop, qpeek, oppLen]
        exact hlen (a :: as) (maxKey a as) rfl
    | Ask =>
      cases bids with
      | nil =>
        rw [popPeekOpp, Prod.mk.injEq] at hp
        obtain ⟨-, h2⟩ := hp
        simp [LimitOrderBook.pop_top_bid, qpop, qpeek,
          LimitOrderBook.peek_top_bid] at h2
      | cons a as =>
        rw [popPeekOpp, Prod.mk.injEq] at hp
        obtain ⟨h1, -⟩ := hp
        rw [← h1]
        simp only [LimitOrderBook.pop_top_bid, qpop, qpeek, oppLen]
        exact hlen (a :: as) (maxKey a as) rfl
  exact key incoming_order.side orderbook orderbook1 opposite hpp

/-- src/src/core/matcher.rs `Matcher::match_order`. A Stop order hits
`todo!()` in the source — a panic before any trade is emitted or any book
mutation happens — modelled as returning the book and the fresh empty match
unchanged. -/
def Matcher.match_order (order : Order) (orderbook : LimitOrderBook) :
    LimitOrderBook × Match :=
  let ms := Match.new
  match order.order_type with
  | OrderType.Market =>
    match Matcher.get_opposite_order order.side orderbook with
    | some opp_order => Matcher.do_match order opp_order orderbook ms
    | none => (orderbook, ms)
  | OrderType.Limit =>
    match Matcher.get_opposite_order order.side orderbook with
    | some opp_order =>
      if Matcher.is_within_price_limit order opp_order then
        let r := Matcher.do_match order opp_order orderbook ms
        if r.2.state = MatchState.Partial then
          let left_over := { order with quantity := r.2.qty_left }
          ((r.1.place left_over).2, r.2)
        else
          r
      else
        ((orderbook.place order).2, ms)
    | none => ((orderbook.place order).2, ms)
  | OrderType.Stop => (orderbook, ms)

/-! ## The router (src/src/core/router.rs) -/

/-- src/src/core/router.rs `PlaceOrder`. -/
structure PlaceOrder where
  price : Int
  quantity : Nat
  side : OrderSide
  order_type : OrderType
  trading_pair : TradingPair
deriving DecidableEq

/-- src/src/core/router.rs `PlaceOrder::to_order`. The source mints the id
with `Uuid::new_v4()` and the timestamp with `Util::current_time_millis()`;
both providers are injected here as arguments (`orderid`, `now`), keeping the
model deterministic. -/
def PlaceOrder.to_order (p : PlaceOrder) (orderid : Nat)
    (now : Nat) : Order :=
  ⟨orderid, p.price, p.quantity, p.side, p.order_type, now, p.trading_pair⟩

/-- src/src/core/router.rs `PlaceOrder::validate`. -/
def PlaceOrder.validate (p : PlaceOrder) : Option Failure :=
  if p.quantity ≤ 0 then
    some (Failure.OrderRejected "Quantity must be greater than zero")
  else
    p.trading_pair.validate

/-- src/src/core/router.rs `CancelOrder`. -/
structure CancelOrder where
  orderid : Nat
  trading_pair : TradingPair
deriving DecidableEq

/-- src/src/core/router.rs `Request`. -/
inductive Request
  | PlaceOrder (p : PlaceOrder)
  | Cancel (c : CancelOrder)
deriving DecidableEq

/-- src/src/core/router.rs `Request::validate`. -/
def Request.validate : Request → Option Failure
  | Request.PlaceOrder p => p.validate
  | Request.Cancel c => c.trading_pair.validate

/-- src/src/core/router.rs `Router` at the engine's instantiation
`T = LimitOrderBook`. The `Mutex<HashMap<TradingPair, T>>` book map is an
association list here; `try_lock` always succeeds in this single-threaded
model, so the `EngineOverCapacity` arm is never taken. -/
structure Router where
  books : List (TradingPair × LimitOrderBook)
deriving DecidableEq

/-- `HashMap::get_mut` on the book map: the book of `tp`, if configured. -/
def lookupBook (books : List (TradingPair × LimitOrderBook))
    (tp : TradingPair) : Option LimitOrderBook :=
  match books.find? (fun p => decide (p.1 = tp)) with
  | some p => some p.2
  | none => none

/-- Writing back the (in Rust, in-place mutated) book of `tp`. -/
def updateBook (books : List (TradingPair × LimitOrderBook))
    (tp : TradingPair) (b : LimitOrderBook) :
    List (TradingPair × LimitOrderBook) :=
  books.map (fun p => if p.1 = tp then (p.1, b) else p)

/-- src/src/core/router.rs `Router::handle`. The source renders the
`BookNotFound` message with `format!` over the pair's Debug form; it is a
fixed string here (no stated property depends on its text). Note the source
discards the result of `book.cancel` (`let _ = ...`). -/
def Router.handle (r : Router) (request : Request) (freshid : Nat)
    (now : Nat) : Except Failure Unit × Router :=
  match request.validate with
  | some failure => (Except.error failure, r)
  | none =>
    match request with
    | Request.PlaceOrder p =>
      let order := p.to_order freshid now
      match lookupBook r.books order.trading_pair with
      | some book =>
        let book1 := (Matcher.match_order order book).1
        (Except.ok (), ⟨updateBook r.books order.trading_pair book1⟩)
      | none =>
        (Except.error (Failure.BookNotFound "No book found for trading pair"), r)
    | Request.Cancel cancel =>
      match lookupBook r.books cancel.trading_pair with
      | some book =>
        let book1 := (book.cancel cancel.orderid).2
        (Except.ok (), ⟨updateBook r.books cancel.trading_pair book1⟩)
      | none =>
        (Except.error (Failure.BookNotFound "No book found for trading pair"), r)

/-! ## Derived notions the stated properties use -/

/-- The resting orders of a book: the order index's bindings (their multiset
is the book's content). -/
def ordersValues (b : LimitOrderBook) : List Order :=
  b.orders.map Prod.snd

/-- The order ids resident in a book's index. -/
def bookIds (b : LimitOrderBook) : List Nat :=
  b.orders.map Prod.fst

/-- The total trade quantity credited to order id `i` in a trade list. -/
def credited (trades : List Trade) (i : Nat) : Nat :=
  ((trades.filter (fun t => decide (t.orderid = i))).map Trade.quantity).sum

/-- Spec section 3 book invariant: no resting order is a market order. -/
def noMarketResident (b : LimitOrderBook) : Prop :=
  ∀ o ∈ ordersValues b, o.order_type ≠ OrderType.Market

/-- One mutating operation of the book's public interface (the operations
through which every reachable book state arises). -/
inductive BookOp
  | place (o : Order)
  | cancel (i : Nat)
  | matchOrder (o : Order)
  | modifyQuantity (i : Nat) (q : Nat)
  | popTopBid
  | popTopAsk

/-- The book state an operation leaves behind. -/
def applyOp (b : LimitOrderBook) : BookOp → LimitOrderBook
  | BookOp.place o => (b.place o).2
  | BookOp.cancel i => (b.cancel i).2
  | BookOp.matchOrder o => (Matcher.match_order o b).1
  | BookOp.modifyQuantity i q => b.modify_quantity i q
  | BookOp.popTopBid => (b.pop_top_bid).2
  | BookOp.popTopAsk => (b.pop_top_ask).2

/-- A Failure of the InvalidTradingPair kind? -/
def Failure.isInvalidTradingPair : Failure → Bool
  | Failure.InvalidTradingPair _ => true
  | _ => false

/-! ## Concrete sample inputs for counterexamples and witnesses -/

def pairETHUSDC : TradingPair := ⟨Asset.ETH, Asset.USDC⟩

def pairBTCUSDC : TradingPair := ⟨Asset.BTC, Asset.USDC⟩

/-- Mirrors the repository test
`the_spread_can_be_gotten_for_a_book_with_both_sides`: ask at 200.02 and bid
at 100.02, prices scaled by 100 into integers. -/
def c2Ask : Order := ⟨1, 20002, 8, OrderSide.Ask, OrderType.Limit, 1, pairETHUSDC⟩

def c2Bid : Order := ⟨2, 10002, 8, OrderSide.Bid, OrderType.Limit, 2, pairETHUSDC⟩

def c2Book : LimitOrderBook :=
  (((LimitOrderBook.init pairETHUSDC).place c2Ask).2.place c2Bid).2

/-- Resting asks at price 40 (quantity 10) and price 60 (quantity 100). -/
def c1Ask1 : Order := ⟨1, 40, 10, OrderSide.Ask, OrderType.Limit, 1, pairETHUSDC⟩

def c1Ask2 : Order := ⟨2, 60, 100, OrderSide.Ask, OrderType.Limit, 2, pairETHUSDC⟩

def c1Book : LimitOrderBook :=
  (((LimitOrderBook.init pairETHUSDC).place c1Ask1).2.place c1Ask2).2

/-- An incoming limit bid at price 50 for quantity 20: its limit admits the
ask at 40 but not the ask at 60. -/
def c1Bid : Order := ⟨3, 50, 20, OrderSide.Bid, OrderType.Limit, 3, pairETHUSDC⟩

/-- A router with one (empty) configured book for BTC/USDC. -/
def c5Router : Router := ⟨[(pairBTCUSDC, LimitOrderBook.init pairBTCUSDC)]⟩

/-- A place request whose trading pair repeats one asset. -/
def c6Place : PlaceOrder :=
  ⟨300, 2, OrderSide.Bid, OrderType.Limit, ⟨Asset.BTC, Asset.BTC⟩⟩

def c7Key1 : OrderKey := ⟨1, 100, OrderSide.Bid, 5⟩

def c7Key2 : OrderKey := ⟨2, 100, OrderSide.Bid, 5⟩

def c3Ask : Order := ⟨1, 10, 3, OrderSide.Ask, OrderType.Limit, 1, pairETHUSDC⟩

def c3Book : LimitOrderBook :=
  ((LimitOrderBook.init pairETHUSDC).place c3Ask).2

/-- An incoming limit bid crossing `c3Ask` with quantity 5 > 3: a partial
fill whose residual 2 is rested. -/
def c3Bid : Order := ⟨99, 10, 5, OrderSide.Bid, OrderType.Limit, 2, pairETHUSDC⟩

def c9Bid : Order := ⟨7, 12, 4, OrderSide.Bid, OrderType.Limit, 9, pairETHUSDC⟩

/-! ## Helper lemmas -/

theorem maxKey_mem (a : OrderKey) (xs : List OrderKey) : maxKey a xs ∈ a :: xs := by
  unfold maxKey
  induction xs generalizing a with
  | nil => simp
  | cons x xs ih =>
    simp only [List.foldl_cons]
    have h := ih (if OrderKey.cmp x a = Ordering.gt then x else a)
    rcases List.mem_cons.mp h with h1 | h1
    · rw [h1]
      by_cases hc : OrderKey.cmp x a = Ordering.gt
      · simp [hc, List.mem_cons]
      · simp [hc, List.mem_cons]
    · simp [List.mem_cons, h1]

theorem qpeek_mem {q : List OrderKey} {k : OrderKey} (h : qpeek q = some k) :
    k ∈ q := by
  cases q with
  | nil => simp [qpeek] at h
  | cons a as =>
    simp only [qpeek, Option.some.injEq] at h
    rw [← h]
    exact maxKey_mem a as

theorem qpeek_eq_none {q : List OrderKey} : qpeek q = none ↔ q = [] := by
  cases q <;> simp [qpeek]

theorem lookupOrder_mem {orders : List (Nat × Order)} {i : Nat}
    {o : Order} (h : lookupOrder orders i = some o) : o ∈ orders.map Prod.snd := by
  unfold lookupOrder at h
  cases hf : orders.find? (fun p => decide (p.1 = i)) with
  | none => rw [hf] at h; simp at h
  | some p =>
    rw [hf] at h
    simp only [Option.some.injEq] at h
    rw [← h]
    exact List.mem_map_of_mem Prod.snd (List.mem_of_find?_eq_some hf)

theorem peek_top_ask_mem {b : LimitOrderBook} {o : Order}
    (h : b.peek_top_ask = some o) : o ∈ ordersValues b := by
  unfold LimitOrderBook.peek_top_ask at h
  cases hq : qpeek b.asks with
  | none => rw [hq] at h; simp at h
  | some k => rw [hq] at h; exact lookupOrder_mem h

theorem peek_top_bid_mem {b : LimitOrderBook} {o : Order}
    (h : b.peek_top_bid = some o) : o ∈ ordersValues b := by
  unfold LimitOrderBook.peek_top_bid at h
  cases hq : qpeek b.bids with
  | none => rw [hq] at h; simp at h
  | some k => rw [hq] at h; exact lookupOrder_mem h

theorem ordersValues_pop_top_ask {b : LimitOrderBook} :
    ∀ o ∈ ordersValues (b.pop_top_ask).2, o ∈ ordersValues b := by
  intro o ho
  unfold LimitOrderBook.pop_top_ask at ho
  split at ho
  · simp only [ordersValues, eraseOrder, List.mem_map] at ho ⊢
    obtain ⟨p, hp, rfl⟩ := ho
    exact ⟨p, List.mem_of_mem_filter hp, rfl⟩
  · exact ho

theorem ordersValues_pop_top_bid {b : LimitOrderBook} :
    ∀ o ∈ ordersValues (b.pop_top_bid).2, o ∈ ordersValues b := by
  intro o ho
  unfold LimitOrderBook.pop_top_bid at ho
  split at ho
  · simp only [ordersValues, eraseOrder, List.mem_map] at ho ⊢
    obtain ⟨p, hp, rfl⟩ := ho
    exact ⟨p, List.mem_of_mem_filter hp, rfl⟩
  · exact ho

theorem popPeekOpp_spec {s : OrderSide} {b b1 : LimitOrderBook} {opp : Order}
    (h : popPeekOpp s b = (b1, some opp)) :
    opp ∈ ordersValues b1 ∧ ∀ o ∈ ordersValues b1, o ∈ ordersValues b := by
  cases s with
  | Bid =>
    rw [popPeekOpp, Prod.mk.injEq] at h
    obtain ⟨h1, h2⟩ := h
    subst h1
    exact ⟨peek_top_ask_mem h2, fun o ho => ordersValues_pop_top_ask o ho⟩
  | Ask =>
    rw [popPeekOpp, Prod.mk.injEq] at h
    obtain ⟨h1, h2⟩ := h
    subst h1
    exact ⟨peek_top_bid_mem h2, fun o ho => ordersValues_pop_top_bid o ho⟩

theorem credited_append (ts us : List Trade) (i : Nat) :
    credited (ts ++ us) i = credited ts i + credited us i := by
  simp [credited, List.filter_append]

theorem credited_cons (t : Trade) (ts : List Trade) (i : Nat) :
    credited (t :: ts) i =
      (if t.orderid = i then t.quantity else 0) + credited ts i := by
  by_cases h : t.orderid = i <;> simp [credited, List.filter_cons, h]

theorem credited_nil (i : Nat) : credited [] i = 0 :=
  rfl

theorem credited_singleton (t : Trade) (i : Nat) :
    credited [t] i = if t.orderid = i then t.quantity else 0 := by
  by_cases h : t.orderid = i <;> simp [credited, List.filter_cons, h]

theorem get_opposite_order_mem {side : OrderSide} {b : LimitOrderBook}
    {o : Order} (h : Matcher.get_opposite_order side b = some o) :
    o ∈ ordersValues b := by
  cases side with
  | Bid =>
    simp only [Matcher.get_opposite_order] at h
    exact peek_top_ask_mem h
  | Ask =>
    simp only [Matcher.get_opposite_order] at h
    exact peek_top_bid_mem h

/-! ## The claims -/

/-- C2, the claim as stated is refuted at a concrete book (the same book the
repository test `the_spread_can_be_gotten_for_a_book_with_both_sides`
builds): both sides are non-empty, the top ask is at 20002 and the top bid at
10002, so ask minus bid is 10000, yet `get_spread` returns −10000. -/
theorem C2_spread_counterexample :
    c2Book.peek_top_bid = some c2Bid ∧ c2Book.peek_top_ask = some c2Ask ∧
    c2Ask.price - c2Bid.price = 10000 ∧
    c2Book.get_spread = some (-10000) ∧
    c2Book.get_spread ≠ some (c2Ask.price - c2Bid.price) := by
  decide

/-- C2 (amended): for every book, `get_spread` is defined exactly when both
the bid side and the ask side are non-empty, and its value is
top_bid.price − top_ask.price (the source subtracts in that operand order,
the sign opposite to the claim's ask-minus-bid). -/
theorem C2_spread_defined_iff_both_sides (b : LimitOrderBook) :
    (b.get_spread = none ↔ (b.bids = [] ∨ b.asks = [])) ∧
    (∀ kb ka, qpeek b.bids = some kb → qpeek b.asks = some ka →
      b.get_spread = some (kb.price - ka.price)) := by
  constructor
  · constructor
    · intro hnone
      unfold LimitOrderBook.get_spread at hnone
      cases hb : qpeek b.bids with
      | none => exact Or.inl (qpeek_eq_none.mp hb)
      | some kb =>
        rw [hb] at hnone
        cases ha : qpeek b.asks with
        | none => exact Or.inr (qpeek_eq_none.mp ha)
        | some ka => rw [ha] at hnone; simp at hnone
    · intro hcase
      unfold LimitOrderBook.get_spread
      rcases hcase with h | h
      · rw [qpeek_eq_none.mpr h]
      · rw [qpeek_eq_none.mpr h]
        cases hb : qpeek b.bids <;> simp
  · intro kb ka hb ha
    unfold LimitOrderBook.get_spread
    rw [hb, ha]


/-- C7, the claim as stated is refuted at two concrete keys: they differ (in
their order id) yet agree on price, side and timestamp, and the source's
comparison returns Equal — there is no id tiebreak, so the comparison is not
a strict total order on distinct keys. -/
theorem C7_cmp_counterexample :
    OrderKey.cmp c7Key1 c7Key2 = Ordering.eq ∧ c7Key1 ≠ c7Key2 ∧
    c7Key1.orderid ≠ c7Key2.orderid ∧ c7Key1.price = c7Key2.price ∧
    c7Key1.side = c7Key2.side ∧ c7Key1.timestamp = c7Key2.timestamp := by
  decide

/-- C7 (amended): among keys of the same side the comparison orders by price
(bid side: higher price greater; ask side: lower price greater) and breaks
price ties by timestamp (earlier is greater); but it never consults the order
id, so keys with equal price and timestamp compare as Equal even when
distinct. -/
theorem C7_cmp_price_time_priority (k1 k2 : OrderKey) :
    (k1.side = OrderSide.Bid → k2.price < k1.price →
      OrderKey.cmp k1 k2 = Ordering.gt) ∧
    (k1.side = OrderSide.Bid → k1.price < k2.price →
      OrderKey.cmp k1 k2 = Ordering.lt) ∧
    (k1.side = OrderSide.Ask → k2.price < k1.price →
      OrderKey.cmp k1 k2 = Ordering.lt) ∧
    (k1.side = OrderSide.Ask → k1.price < k2.price →
      OrderKey.cmp k1 k2 = Ordering.gt) ∧
    (k1.price = k2.price → k1.timestamp < k2.timestamp →
      OrderKey.cmp k1 k2 = Ordering.gt) ∧
    (k1.price = k2.price → k2.timestamp < k1.timestamp →
      OrderKey.cmp k1 k2 = Ordering.lt) ∧
    (k1.price = k2.price → k1.timestamp = k2.timestamp →
      OrderKey.cmp k1 k2 = Ordering.eq) := by
  refine ⟨?_, ?_, ?_, ?_, ?_, ?_, ?_⟩
  · intro hs hp; simp [OrderKey.cmp, hp, hs]
  · intro hs hp
    simp [OrderKey.cmp, hp, hs, not_lt_of_gt hp]
  · intro hs hp; simp [OrderKey.cmp, hp, hs]
  · intro hs hp
    simp [OrderKey.cmp, hp, hs, not_lt_of_gt hp]
  · intro hp ht
    simp [OrderKey.cmp, hp, lt_irrefl, Nat.compare_eq_gt.mpr ht]
  · intro hp ht
    simp [OrderKey.cmp, hp, lt_irrefl, Nat.compare_eq_lt.mpr ht]
  · intro hp ht
    simp [OrderKey.cmp, hp, ht, lt_irrefl, Nat.compare_eq_eq.mpr rfl]

/-- C5: the code at the claim's failing input. A cancel request for an
unknown order id on a configured (here BTC/USDC) book: the book's `cancel`
itself fails with OrderNotFound, but `Router::handle` discards that result
(`let _ = book.cancel(..)`) and answers Ok, so the failure never reaches the
caller. -/
theorem C5_router_discards_cancel_failure :
    (c5Router.handle (Request.Cancel ⟨42, pairBTCUSDC⟩) 0 0).1 = Except.ok () ∧
    ((LimitOrderBook.init pairBTCUSDC).cancel 42).1 =
      Except.error (Failure.OrderNotFound "No order found with the given id") :=
  ⟨rfl, rfl⟩

/-- C6, the claim as stated is refuted at a concrete request: a PlaceOrder
whose pair is BTC/BTC (and whose quantity is positive) fails with the
OrderRejected kind — `TradingPair::validate` never produces
InvalidTradingPair. -/
theorem C6_same_asset_counterexample :
    (c5Router.handle (Request.PlaceOrder c6Place) 7 0).1 =
      Except.error (Failure.OrderRejected
        "Trading pair must be different for price and order asset type") ∧
    (match (c5Router.handle (Request.PlaceOrder c6Place) 7 0).1 with
      | Except.error f => f.isInvalidTradingPair
      | Except.ok _ => false) = false :=
  ⟨rfl, rfl⟩

/-- C6 (amended): every PlaceOrder whose trading pair repeats one asset fails
validation in `Router::handle` with the OrderRejected kind (not
InvalidTradingPair), before any book is consulted and leaving the book map
unchanged. -/
theorem C6_same_asset_pair_rejected (r : Router) (p : PlaceOrder)
    (freshid : Nat) (now : Nat)
    (h : p.trading_pair.order_asset = p.trading_pair.price_asset) :
    (∃ msg, (r.handle (Request.PlaceOrder p) freshid now).1 =
      Except.error (Failure.OrderRejected msg)) ∧
    (r.handle (Request.PlaceOrder p) freshid now).2 = r := by
  unfold Router.handle Request.validate PlaceOrder.validate TradingPair.validate
  by_cases hq : p.quantity ≤ 0
  · simp [hq]
  · simp [hq, h]

/-- C6 witness: the amended theorem applied at the concrete BTC/BTC place
request against the sample router. -/
theorem C6_same_asset_pair_rejected_witness :
    (∃ msg, (c5Router.handle (Request.PlaceOrder c6Place) 7 0).1 =
      Except.error (Failure.OrderRejected msg)) ∧
    (c5Router.handle (Request.PlaceOrder c6Place) 7 0).2 = c5Router :=
  C6_same_asset_pair_rejected c5Router c6Place 7 0 (by decide)

unseal Matcher.do_match in
/-- C1: the code at the claim's failing input. The limit bid at price 50
(quantity 20) is admitted against the top ask at 40, but the recursion inside
`do_match` crosses the next ask at 60 without re-checking the price limit:
the emitted trades execute at 40, 40, 60, 60, and exactly one trade credited
to the incoming bid has a price above the bid's limit — contradicting both
the stop condition and the every-trade-within-limit consequence. -/
theorem C1_price_limit_not_rechecked :
    (Matcher.match_order c1Bid c1Book).2.trades.map (fun t => t.price) =
      [40, 40, 60, 60] ∧
    ((Matcher.match_order c1Bid c1Book).2.trades.filter
      (fun t => decide (t.orderid = c1Bid.orderid ∧ c1Bid.price < t.price))).length
      = 1 ∧
    c1Bid.price = 50 ∧ c1Bid.side = OrderSide.Bid ∧
    c1Bid.order_type = OrderType.Limit := by
  decide


/-- The shape of the trade list `do_match` leaves behind: the input trades,
then a pair of trades for the crossing of `incoming` with `opposite` — both
at `opposite.price`, both for the smaller of the two quantities, both with
timestamp 0 — then trades produced by the recursion, each with timestamp 0
and priced at some order resting in `b`. -/
theorem do_match_trades_spec :
    ∀ (incoming opposite : Order) (b : LimitOrderBook) (m : Match),
    ∃ s1 s2 rest,
      (Matcher.do_match incoming opposite b m).2.trades =
        m.trades ++
          Trade.mk incoming.orderid incoming.side opposite.price s1
            (min incoming.quantity opposite.quantity) 0 ::
          Trade.mk opposite.orderid opposite.side opposite.price s2
            (min incoming.quantity opposite.quantity) 0 :: rest ∧
      ∀ t ∈ rest, t.timestamp = 0 ∧ ∃ o ∈ ordersValues b, t.price = o.price := by
  intro incoming opposite b m
  induction incoming, opposite, b, m using Matcher.do_match.induct with
  | case1 incoming opposite b m h1 =>
    refine ⟨OrderStatus.Filled, OrderStatus.PartialFill, [], ?_, by simp⟩
    rw [Matcher.do_match.eq_def]
    simp [h1, Match.add_match, Match.update_state, Nat.min_eq_left h1.le]
  | case2 incoming opposite b m h1 h2 ms1 ms2 incoming1 ms3 ms4 orderbook1 opp hpp ih =>
    unfold_let ms4 ms3 incoming1 ms2 ms1 at ih
    simp only [Match.add_match, Match.update_qty_left, Match.update_state] at ih
    obtain ⟨s1, s2, rest, hevq, hrest⟩ := ih
    obtain ⟨hoppmem, hsub⟩ := popPeekOpp_spec hpp
    refine ⟨OrderStatus.PartialFill, OrderStatus.Filled,
      Trade.mk incoming.orderid incoming.side opp.price s1
        (min (incoming.quantity - opposite.quantity) opp.quantity) 0 ::
      Trade.mk opp.orderid opp.side opp.price s2
        (min (incoming.quantity - opposite.quantity) opp.quantity) 0 ::
      rest, ?_, ?_⟩
    · rw [Matcher.do_match.eq_def]
      simp only [if_neg h1, if_pos h2, Match.add_match,
        Match.update_qty_left, Match.update_state]
      split
      next b1 o1 heq =>
        rw [hpp] at heq
        injection heq with hb ho
        injection ho with ho
        subst hb
        subst ho
        rw [hevq]
        simp [Nat.min_eq_right (le_of_lt h2), List.append_assoc]
      next b1 heq =>
        rw [hpp] at heq
        injection heq with hb ho
        exact absurd ho (by simp)
    · intro t ht
      rcases List.mem_cons.mp ht with rfl | ht
      · exact ⟨rfl, opp, hsub opp hoppmem, rfl⟩
      rcases List.mem_cons.mp ht with rfl | ht
      · exact ⟨rfl, opp, hsub opp hoppmem, rfl⟩
      obtain ⟨hts, o, ho, hp⟩ := hrest t ht
      exact ⟨hts, o, hsub o ho, hp⟩
  | case3 incoming opposite b m h1 h2 orderbook1 hpp =>
    refine ⟨OrderStatus.PartialFill, OrderStatus.Filled, [], ?_, by simp⟩
    rw [Matcher.do_match.eq_def]
    simp only [if_neg h1, if_pos h2, Match.add_match,
      Match.update_qty_left, Match.update_state]
    split
    next b1 o1 heq =>
      rw [hpp] at heq
      injection heq with hb ho
      exact absurd ho (by simp)
    next b1 heq =>
      rw [hpp] at heq
      injection heq with hb ho
      subst hb
      simp [Nat.min_eq_right (le_of_lt h2), List.append_assoc]
  | case4 incoming opposite b m h1 h2 =>
    have hq : incoming.quantity = opposite.quantity :=
      le_antisymm (Nat.not_lt.mp h2) (Nat.not_lt.mp h1)
    refine ⟨OrderStatus.Filled, OrderStatus.Filled, [], ?_, by simp⟩
    rw [Matcher.do_match.eq_def]
    simp [if_neg h1, if_neg h2, Match.add_match, Match.update_state, hq]

/-- The trade list `match_order` returns: either empty (no crossing) or the
pair-structured list of `do_match` started from the empty match, whose first
opposite comes from peeking the book. -/
theorem match_order_trades_spec (order : Order) (b : LimitOrderBook) :
    (Matcher.match_order order b).2.trades = [] ∨
    ∃ opp s1 s2 rest, opp ∈ ordersValues b ∧
      (Matcher.match_order order b).2.trades =
        Trade.mk order.orderid order.side opp.price s1
          (min order.quantity opp.quantity) 0 ::
        Trade.mk opp.orderid opp.side opp.price s2
          (min order.quantity opp.quantity) 0 :: rest ∧
      (∀ t ∈ rest, t.timestamp = 0 ∧ ∃ o ∈ ordersValues b, t.price = o.price) := by
  unfold Matcher.match_order
  cases horder : order.order_type with
  | Market =>
    cases hopp : Matcher.get_opposite_order order.side b with
    | none => exact Or.inl rfl
    | some opp =>
      have hmem : opp ∈ ordersValues b := by
        cases hside : order.side with
        | Bid =>
          rw [hside] at hopp
          simp only [Matcher.get_opposite_order] at hopp
          exact peek_top_ask_mem hopp
        | Ask =>
          rw [hside] at hopp
          simp only [Matcher.get_opposite_order] at hopp
          exact peek_top_bid_mem hopp
      obtain ⟨s1, s2, rest, hevq, hrest⟩ := do_match_trades_spec order opp b Match.new
      refine Or.inr ⟨opp, s1, s2, rest, hmem, ?_, hrest⟩
      simpa [Match.new] using hevq
  | Limit =>
    cases hopp : Matcher.get_opposite_order order.side b with
    | none => exact Or.inl rfl
    | some opp =>
      have hmem : opp ∈ ordersValues b := by
        cases hside : order.side with
        | Bid =>
          rw [hside] at hopp
          simp only [Matcher.get_opposite_order] at hopp
          exact peek_top_ask_mem hopp
        | Ask =>
          rw [hside] at hopp
          simp only [Matcher.get_opposite_order] at hopp
          exact peek_top_bid_mem hopp
      by_cases hlim : Matcher.is_within_price_limit order opp
      · obtain ⟨s1, s2, rest, hevq, hrest⟩ := do_match_trades_spec order opp b Match.new
        refine Or.inr ⟨opp, s1, s2, rest, hmem, ?_, hrest⟩
        by_cases hpart :
            (Matcher.do_match order opp b Match.new).2.state = MatchState.Partial
        · simp only [hlim, if_pos, hpart, if_true]
          simpa [Match.new] using hevq
        · simp only [hlim, if_pos, hpart, if_false]
          simpa [Match.new] using hevq
      · simp only [hlim]
        exact Or.inl rfl
  | Stop => exact Or.inl rfl


/-- C4: every trade `do_match` emits, in all three quantity cases, executes
at the opposite (resting) order's price, never the incoming order's: the two
trades of the first crossing both carry `opposite.price`, and every trade of
the recursion carries the price of an order resting in the book. -/
theorem C4_trades_at_maker_price (incoming opposite : Order)
    (b : LimitOrderBook) (m : Match) :
    ∃ s1 s2 rest,
      (Matcher.do_match incoming opposite b m).2.trades =
        m.trades ++
          Trade.mk incoming.orderid incoming.side opposite.price s1
            (min incoming.quantity opposite.quantity) 0 ::
          Trade.mk opposite.orderid opposite.side opposite.price s2
            (min incoming.quantity opposite.quantity) 0 :: rest ∧
      ∀ t ∈ rest, ∃ o ∈ ordersValues b, t.price = o.price := by
  obtain ⟨s1, s2, rest, hevq, hrest⟩ := do_match_trades_spec incoming opposite b m
  exact ⟨s1, s2, rest, hevq, fun t ht => (hrest t ht).2⟩

/-- C10: every trade the matcher emits has timestamp 0 — `do_match` writes
the literal 0 into every Trade's timestamp field and consults no clock, so
trade timestamps never record the execution time. -/
theorem C10_trade_timestamps_zero (order : Order) (b : LimitOrderBook) :
    (Matcher.match_order order b).2.trades.all
      (fun t => decide (t.timestamp = 0)) = true := by
  rw [List.all_eq_true]
  intro t ht
  rcases match_order_trades_spec order b with h | ⟨opp, s1, s2, rest, hmem, hevq, hrest⟩
  · rw [h] at ht
    simp at ht
  · rw [hevq] at ht
    rcases List.mem_cons.mp ht with rfl | ht
    · simp
    rcases List.mem_cons.mp ht with rfl | ht
    · simp
    simp [(hrest t ht).1]

/-- The credited-quantity accounting of `do_match`: started on an incoming
order of positive quantity whose id is carried by no resting order nor by the
opposite, the run either ends Full having credited exactly the incoming
quantity, or ends Partial with a positive remainder that accounts for the
uncredited difference. -/
theorem do_match_credited :
    ∀ (incoming opposite : Order) (b : LimitOrderBook) (m : Match),
    opposite.orderid ≠ incoming.orderid →
    (∀ o ∈ ordersValues b, o.orderid ≠ incoming.orderid) →
    0 < incoming.quantity →
    ((Matcher.do_match incoming opposite b m).2.state = MatchState.Full ∧
      credited (Matcher.do_match incoming opposite b m).2.trades
        incoming.orderid =
        credited m.trades incoming.orderid + incoming.quantity) ∨
    ((Matcher.do_match incoming opposite b m).2.state = MatchState.Partial ∧
      0 < (Matcher.do_match incoming opposite b m).2.qty_left ∧
      credited (Matcher.do_match incoming opposite b m).2.trades
          incoming.orderid +
        (Matcher.do_match incoming opposite b m).2.qty_left =
        credited m.trades incoming.orderid + incoming.quantity) := by
  intro incoming opposite b m
  induction incoming, opposite, b, m using Matcher.do_match.induct with
  | case1 incoming opposite b m h1 =>
    intro hopp hb hq
    left
    rw [Matcher.do_match.eq_def]
    simp only [if_pos h1, Match.add_match, Match.update_state]
    refine ⟨by trivial, ?_⟩
    rw [credited_append, credited_append, credited_singleton, credited_singleton]
    simp [hopp]
  | case2 incoming opposite b m h1 h2 ms1 ms2 incoming1 ms3 ms4 orderbook1 opp hpp ih =>
    intro hopp hb hq
    unfold_let ms4 ms3 incoming1 ms2 ms1 at ih
    simp only [Match.add_match, Match.update_qty_left, Match.update_state] at ih
    obtain ⟨hoppmem, hsub⟩ := popPeekOpp_spec hpp
    have hopp2 : opp.orderid ≠ incoming.orderid := hb opp (hsub opp hoppmem)
    have hb2 : ∀ o ∈ ordersValues orderbook1, o.orderid ≠ incoming.orderid :=
      fun o ho => hb o (hsub o ho)
    have hq2 : 0 < incoming.quantity - opposite.quantity := Nat.sub_pos_of_lt h2
    have ihr := ih hopp2 hb2 hq2
    rw [Matcher.do_match.eq_def]
    simp only [if_neg h1, if_pos h2, Match.add_match,
      Match.update_qty_left, Match.update_state]
    split
    next b1 o1 heq =>
      rw [hpp] at heq
      injection heq with hbk ho
      injection ho with ho
      subst hbk
      subst ho
      rcases ihr with ⟨hst, hcr⟩ | ⟨hst, hpos, hcr⟩
      · left
        refine ⟨hst, ?_⟩
        rw [credited_append, credited_append, credited_singleton,
          credited_singleton] at hcr
        simp only [hopp] at hcr
        simp at hcr
        simp only [List.append_assoc, List.singleton_append]
        omega
      · right
        refine ⟨hst, hpos, ?_⟩
        rw [credited_append, credited_append, credited_singleton,
          credited_singleton] at hcr
        simp only [hopp] at hcr
        simp at hcr
        simp only [List.append_assoc, List.singleton_append]
        omega
    next b1 heq =>
      rw [hpp] at heq
      injection heq with hbk ho
      exact absurd ho (by simp)
  | case3 incoming opposite b m h1 h2 orderbook1 hpp =>
    intro hopp hb hq
    right
    rw [Matcher.do_match.eq_def]
    simp only [if_neg h1, if_pos h2, Match.add_match,
      Match.update_qty_left, Match.update_state]
    split
    next b1 o1 heq =>
      rw [hpp] at heq
      injection heq with hbk ho
      exact absurd ho (by simp)
    next b1 heq =>
      refine ⟨by trivial, Nat.sub_pos_of_lt h2, ?_⟩
      rw [credited_append, credited_append, credited_singleton,
        credited_singleton]
      simp [hopp]
      omega
  | case4 incoming opposite b m h1 h2 =>
    intro hopp hb hq
    have hqeq : incoming.quantity = opposite.quantity :=
      le_antisymm (Nat.not_lt.mp h2) (Nat.not_lt.mp h1)
    left
    rw [Matcher.do_match.eq_def]
    simp only [if_neg h1, if_neg h2, Match.add_match, Match.update_state]
    refine ⟨by trivial, ?_⟩
    rw [credited_append, credited_append, credited_singleton, credited_singleton]
    simp [hopp]



/-- C3: for every match invocation on an incoming order of positive quantity
(whose id no resting order carries), the quantity credited to the incoming
order is at most its original quantity, with equality exactly when the
terminal match state is Full. -/
theorem C3_quantity_conservation (order : Order) (b : LimitOrderBook)
    (hq : 0 < order.quantity)
    (hfresh : ∀ o ∈ ordersValues b, o.orderid ≠ order.orderid) :
    credited (Matcher.match_order order b).2.trades order.orderid ≤
      order.quantity ∧
    (credited (Matcher.match_order order b).2.trades order.orderid =
        order.quantity ↔
      (Matcher.match_order order b).2.state = MatchState.Full) := by
  have hempty : credited Match.new.trades order.orderid = 0 := rfl
  have hnostate : Match.new.state = MatchState.NoMatch := rfl
  unfold Matcher.match_order
  cases horder : order.order_type with
  | Market =>
    cases hopp : Matcher.get_opposite_order order.side b with
    | none =>
      dsimp only
      refine ⟨by simp [hempty], ?_⟩
      rw [hempty, hnostate]
      constructor
      · intro h
        exact absurd h.symm (Nat.ne_of_gt hq)
      · intro h
        cases h
    | some opp =>
      dsimp only
      have hopp2 : opp.orderid ≠ order.orderid :=
        hfresh opp (get_opposite_order_mem hopp)
      rcases do_match_credited order opp b Match.new hopp2 hfresh hq with
        ⟨hst, hcr⟩ | ⟨hst, hpos, hcr⟩
      · rw [hempty] at hcr
        refine ⟨by omega, ?_⟩
        rw [hst, hcr]
        simp
      · rw [hempty] at hcr
        constructor
        · omega
        · rw [hst]
          constructor
          · intro h
            omega
          · intro h
            cases h
  | Limit =>
    cases hopp : Matcher.get_opposite_order order.side b with
    | none =>
      dsimp only
      refine ⟨by simp [hempty], ?_⟩
      rw [hempty, hnostate]
      constructor
      · intro h
        exact absurd h.symm (Nat.ne_of_gt hq)
      · intro h
        cases h
    | some opp =>
      dsimp only
      have hopp2 : opp.orderid ≠ order.orderid :=
        hfresh opp (get_opposite_order_mem hopp)
      by_cases hlim : Matcher.is_within_price_limit order opp
      · simp only [hlim, if_pos, if_true]
        by_cases hpart :
            (Matcher.do_match order opp b Match.new).2.state = MatchState.Partial
        · simp only [hpart, if_true]
          rcases do_match_credited order opp b Match.new hopp2 hfresh hq with
            ⟨hst, hcr⟩ | ⟨hst, hpos, hcr⟩
          · rw [hst] at hpart
            cases hpart
          · rw [hempty] at hcr
            constructor
            · omega
            · constructor
              · intro h
                exact absurd h (by omega)
              · intro h
                cases h
        · simp only [hpart, if_false]
          rcases do_match_credited order opp b Match.new hopp2 hfresh hq with
            ⟨hst, hcr⟩ | ⟨hst, hpos, hcr⟩
          · rw [hempty] at hcr
            refine ⟨by omega, ?_⟩
            rw [hst, hcr]
            simp
          · exact absurd hst hpart
      · rw [Bool.not_eq_true] at hlim
        simp only [hlim, Bool.false_eq_true, if_false]
        refine ⟨by simp [hempty], ?_⟩
        rw [hempty, hnostate]
        constructor
        · intro h
          exact absurd h.symm (Nat.ne_of_gt hq)
        · intro h
          cases h
  | Stop =>
    dsimp only
    refine ⟨by simp [hempty], ?_⟩
    rw [hempty, hnostate]
    constructor
    · intro h
      exact absurd h.symm (Nat.ne_of_gt hq)
    · intro h
      cases h

/-- C3 witness: a limit bid of quantity 5 crossing a resting ask of
quantity 3 — the run is Partial and credits 3 < 5. -/
theorem C3_quantity_conservation_witness :
    credited (Matcher.match_order c3Bid c3Book).2.trades c3Bid.orderid ≤
      c3Bid.quantity ∧
    (credited (Matcher.match_order c3Bid c3Book).2.trades c3Bid.orderid =
        c3Bid.quantity ↔
      (Matcher.match_order c3Bid c3Book).2.state = MatchState.Full) :=
  C3_quantity_conservation c3Bid c3Book (by decide) (by decide)


/-! ## Lemmas for the no-market-resident invariant (C8) -/

theorem popPeekOpp_values_sub {s : OrderSide} {b b1 : LimitOrderBook}
    {x : Option Order} (h : popPeekOpp s b = (b1, x)) :
    ∀ o ∈ ordersValues b1, o ∈ ordersValues b := by
  cases s with
  | Bid =>
    rw [popPeekOpp, Prod.mk.injEq] at h
    obtain ⟨h1, -⟩ := h
    subst h1
    exact ordersValues_pop_top_ask
  | Ask =>
    rw [popPeekOpp, Prod.mk.injEq] at h
    obtain ⟨h1, -⟩ := h
    subst h1
    exact ordersValues_pop_top_bid

theorem noMarket_modify {b : LimitOrderBook} {i q : Nat}
    (hb : noMarketResident b) : noMarketResident (b.modify_quantity i q) := by
  intro o ho
  simp only [LimitOrderBook.modify_quantity, ordersValues, List.map_map,
    List.mem_map] at ho
  obtain ⟨p, hp, rfl⟩ := ho
  have hptype := hb p.2 (List.mem_map_of_mem Prod.snd hp)
  by_cases hpi : p.1 = i
  · simpa [Function.comp, hpi] using hptype
  · simpa [Function.comp, hpi] using hptype

theorem noMarket_of_values_sub {b b1 : LimitOrderBook}
    (hsub : ∀ o ∈ ordersValues b1, o ∈ ordersValues b)
    (hb : noMarketResident b) : noMarketResident b1 :=
  fun o ho => hb o (hsub o ho)

theorem do_match_noMarket :
    ∀ (incoming opposite : Order) (b : LimitOrderBook) (m : Match),
    noMarketResident b →
    noMarketResident (Matcher.do_match incoming opposite b m).1 := by
  intro incoming opposite b m
  induction incoming, opposite, b, m using Matcher.do_match.induct with
  | case1 incoming opposite b m h1 =>
    intro hb
    rw [Matcher.do_match.eq_def]
    simp only [if_pos h1]
    exact noMarket_modify hb
  | case2 incoming opposite b m h1 h2 ms1 ms2 incoming1 ms3 ms4 orderbook1 opp hpp ih =>
    intro hb
    rw [Matcher.do_match.eq_def]
    simp only [if_neg h1, if_pos h2]
    split
    next b1 o1 heq =>
      rw [hpp] at heq
      injection heq with hbk ho
      injection ho with ho
      subst hbk
      subst ho
      exact ih (noMarket_of_values_sub (popPeekOpp_values_sub hpp) hb)
    next b1 heq =>
      exact noMarket_of_values_sub (popPeekOpp_values_sub heq) hb
  | case3 incoming opposite b m h1 h2 orderbook1 hpp =>
    intro hb
    rw [Matcher.do_match.eq_def]
    simp only [if_neg h1, if_pos h2]
    split
    next b1 o1 heq =>
      rw [hpp] at heq
      injection heq with hbk ho
      exact absurd ho (by simp)
    next b1 heq =>
      exact noMarket_of_values_sub (popPeekOpp_values_sub heq) hb
  | case4 incoming opposite b m h1 h2 =>
    intro hb
    rw [Matcher.do_match.eq_def]
    simp only [if_neg h1, if_neg h2]
    cases incoming.side with
    | Bid => exact noMarket_of_values_sub ordersValues_pop_top_ask hb
    | Ask => exact noMarket_of_values_sub ordersValues_pop_top_bid hb

theorem noMarket_place (b : LimitOrderBook) (o : Order)
    (hb : noMarketResident b) : noMarketResident (b.place o).2 := by
  unfold LimitOrderBook.place
  by_cases hm : o.order_type = OrderType.Market
  · rw [if_pos hm]
    exact hb
  · rw [if_neg hm]
    by_cases hp : b.trading_pair ≠ o.trading_pair
    · rw [if_pos hp]
      exact hb
    · rw [if_neg hp]
      intro v hv
      have : v ∈ ordersValues
          { b with orders := insertOrder o.orderid o b.orders } := by
        cases hs : o.side with
        | Bid => simpa [hs, ordersValues] using hv
        | Ask => simpa [hs, ordersValues] using hv
      simp only [ordersValues, insertOrder, List.map_cons, List.mem_cons] at this
      rcases this with rfl | hmem
      · exact hm
      · refine hb v ?_
        simp only [ordersValues, eraseOrder, List.mem_map] at hmem ⊢
        obtain ⟨p, hp2, rfl⟩ := hmem
        exact ⟨p, List.mem_of_mem_filter hp2, rfl⟩

theorem noMarket_cancel (b : LimitOrderBook) (i : Nat)
    (hb : noMarketResident b) : noMarketResident (b.cancel i).2 := by
  unfold LimitOrderBook.cancel
  cases hl : lookupOrder b.orders i with
  | none => exact hb
  | some order =>
    cases hs : order.side with
    | Bid =>
      simp only [hs]
      intro v hv
      refine hb v ?_
      simp only [ordersValues, eraseOrder, List.mem_map] at hv ⊢
      obtain ⟨p, hp2, rfl⟩ := hv
      exact ⟨p, List.mem_of_mem_filter hp2, rfl⟩
    | Ask =>
      simp only [hs]
      intro v hv
      refine hb v ?_
      simp only [ordersValues, eraseOrder, List.mem_map] at hv ⊢
      obtain ⟨p, hp2, rfl⟩ := hv
      exact ⟨p, List.mem_of_mem_filter hp2, rfl⟩

theorem match_order_noMarket (order : Order) (b : LimitOrderBook)
    (hb : noMarketResident b) :
    noMarketResident (Matcher.match_order order b).1 := by
  unfold Matcher.match_order
  cases horder : order.order_type with
  | Market =>
    cases hopp : Matcher.get_opposite_order order.side b with
    | none => exact hb
    | some opp =>
      dsimp only
      exact do_match_noMarket order opp b Match.new hb
  | Limit =>
    cases hopp : Matcher.get_opposite_order order.side b with
    | none =>
      dsimp only
      exact noMarket_place b order hb
    | some opp =>
      dsimp only
      by_cases hlim : Matcher.is_within_price_limit order opp
      · simp only [hlim, if_pos, if_true]
        by_cases hpart :
            (Matcher.do_match order opp b Match.new).2.state = MatchState.Partial
        · simp only [hpart, if_true]
          exact noMarket_place _ _ (do_match_noMarket order opp b Match.new hb)
        · simp only [hpart, if_false]
          exact do_match_noMarket order opp b Match.new hb
      · rw [Bool.not_eq_true] at hlim
        simp only [hlim, Bool.false_eq_true, if_false]
        exact noMarket_place b order hb
  | Stop => exact hb


theorem bookIds_modify (b : LimitOrderBook) (i q : Nat) :
    bookIds (b.modify_quantity i q) = bookIds b := by
  simp only [bookIds, LimitOrderBook.modify_quantity, List.map_map]
  refine List.map_congr_left ?_
  intro p hp
  by_cases hpi : p.1 = i <;> simp [Function.comp, hpi]

theorem bookIds_pop_top_ask {b : LimitOrderBook} :
    ∀ i ∈ bookIds (b.pop_top_ask).2, i ∈ bookIds b := by
  intro i hi
  unfold LimitOrderBook.pop_top_ask at hi
  split at hi
  · simp only [bookIds, eraseOrder, List.mem_map] at hi ⊢
    obtain ⟨p, hp, rfl⟩ := hi
    exact ⟨p, List.mem_of_mem_filter hp, rfl⟩
  · exact hi

theorem bookIds_pop_top_bid {b : LimitOrderBook} :
    ∀ i ∈ bookIds (b.pop_top_bid).2, i ∈ bookIds b := by
  intro i hi
  unfold LimitOrderBook.pop_top_bid at hi
  split at hi
  · simp only [bookIds, eraseOrder, List.mem_map] at hi ⊢
    obtain ⟨p, hp, rfl⟩ := hi
    exact ⟨p, List.mem_of_mem_filter hp, rfl⟩
  · exact hi

theorem popPeekOpp_ids_sub {s : OrderSide} {b b1 : LimitOrderBook}
    {x : Option Order} (h : popPeekOpp s b = (b1, x)) :
    ∀ i ∈ bookIds b1, i ∈ bookIds b := by
  cases s with
  | Bid =>
    rw [popPeekOpp, Prod.mk.injEq] at h
    obtain ⟨h1, -⟩ := h
    subst h1
    exact bookIds_pop_top_ask
  | Ask =>
    rw [popPeekOpp, Prod.mk.injEq] at h
    obtain ⟨h1, -⟩ := h
    subst h1
    exact bookIds_pop_top_bid

theorem do_match_bookIds :
    ∀ (incoming opposite : Order) (b : LimitOrderBook) (m : Match),
    ∀ i ∈ bookIds (Matcher.do_match incoming opposite b m).1, i ∈ bookIds b := by
  intro incoming opposite b m
  induction incoming, opposite, b, m using Matcher.do_match.induct with
  | case1 incoming opposite b m h1 =>
    intro i hi
    rw [Matcher.do_match.eq_def] at hi
    simp only [if_pos h1] at hi
    rwa [bookIds_modify] at hi
  | case2 incoming opposite b m h1 h2 ms1 ms2 incoming1 ms3 ms4 orderbook1 opp hpp ih =>
    intro i hi
    rw [Matcher.do_match.eq_def] at hi
    simp only [if_neg h1, if_pos h2] at hi
    split at hi
    next b1 o1 heq =>
      rw [hpp] at heq
      injection heq with hbk ho
      injection ho with ho
      subst hbk
      subst ho
      exact popPeekOpp_ids_sub hpp i (ih i hi)
    next b1 heq =>
      exact popPeekOpp_ids_sub heq i hi
  | case3 incoming opposite b m h1 h2 orderbook1 hpp =>
    intro i hi
    rw [Matcher.do_match.eq_def] at hi
    simp only [if_neg h1, if_pos h2] at hi
    split at hi
    next b1 o1 heq =>
      rw [hpp] at heq
      injection heq with hbk ho
      exact absurd ho (by simp)
    next b1 heq =>
      exact popPeekOpp_ids_sub heq i hi
  | case4 incoming opposite b m h1 h2 =>
    intro i hi
    rw [Matcher.do_match.eq_def] at hi
    simp only [if_neg h1, if_neg h2] at hi
    cases hs : incoming.side with
    | Bid =>
      rw [hs] at hi
      exact bookIds_pop_top_ask i hi
    | Ask =>
      rw [hs] at hi
      exact bookIds_pop_top_bid i hi

theorem modify_quantity_pair (b : LimitOrderBook) (i q : Nat) :
    (b.modify_quantity i q).trading_pair = b.trading_pair := rfl

theorem pop_top_ask_pair (b : LimitOrderBook) :
    (b.pop_top_ask).2.trading_pair = b.trading_pair := by
  unfold LimitOrderBook.pop_top_ask
  split <;> rfl

theorem pop_top_bid_pair (b : LimitOrderBook) :
    (b.pop_top_bid).2.trading_pair = b.trading_pair := by
  unfold LimitOrderBook.pop_top_bid
  split <;> rfl

theorem popPeekOpp_pair {s : OrderSide} {b b1 : LimitOrderBook}
    {x : Option Order} (h : popPeekOpp s b = (b1, x)) :
    b1.trading_pair = b.trading_pair := by
  cases s with
  | Bid =>
    rw [popPeekOpp, Prod.mk.injEq] at h
    obtain ⟨h1, -⟩ := h
    subst h1
    exact pop_top_ask_pair b
  | Ask =>
    rw [popPeekOpp, Prod.mk.injEq] at h
    obtain ⟨h1, -⟩ := h
    subst h1
    exact pop_top_bid_pair b

theorem do_match_pair :
    ∀ (incoming opposite : Order) (b : LimitOrderBook) (m : Match),
    (Matcher.do_match incoming opposite b m).1.trading_pair = b.trading_pair := by
  intro incoming opposite b m
  induction incoming, opposite, b, m using Matcher.do_match.induct with
  | case1 incoming opposite b m h1 =>
    rw [Matcher.do_match.eq_def]
    simp only [if_pos h1]
    rfl
  | case2 incoming opposite b m h1 h2 ms1 ms2 incoming1 ms3 ms4 orderbook1 opp hpp ih =>
    rw [Matcher.do_match.eq_def]
    simp only [if_neg h1, if_pos h2]
    split
    next b1 o1 heq =>
      rw [hpp] at heq
      injection heq with hbk ho
      injection ho with ho
      subst hbk
      subst ho
      rw [ih]
      exact popPeekOpp_pair hpp
    next b1 heq =>
      exact popPeekOpp_pair heq
  | case3 incoming opposite b m h1 h2 orderbook1 hpp =>
    rw [Matcher.do_match.eq_def]
    simp only [if_neg h1, if_pos h2]
    split
    next b1 o1 heq =>
      rw [hpp] at heq
      injection heq with hbk ho
      exact absurd ho (by simp)
    next b1 heq =>
      exact popPeekOpp_pair heq
  | case4 incoming opposite b m h1 h2 =>
    rw [Matcher.do_match.eq_def]
    simp only [if_neg h1, if_neg h2]
    cases incoming.side with
    | Bid => exact pop_top_ask_pair b
    | Ask => exact pop_top_bid_pair b

theorem lookupOrder_insert (i : Nat) (o : Order)
    (orders : List (Nat × Order)) :
    lookupOrder (insertOrder i o orders) i = some o := by
  simp [lookupOrder, insertOrder, List.find?_cons_of_pos]

theorem place_result (b : LimitOrderBook) (o : Order)
    (hm : o.order_type ≠ OrderType.Market)
    (hp : b.trading_pair = o.trading_pair) :
    (b.place o).2.orders = insertOrder o.orderid o b.orders ∧
    (b.place o).1 = Except.ok ⟨OrderStatus.Created, o.orderid, ""⟩ := by
  unfold LimitOrderBook.place
  rw [if_neg hm, if_neg (by simpa using hp)]
  cases o.side <;> exact ⟨rfl, rfl⟩


/-- C8: no market order is ever resident in a book. A freshly initialized
book is empty; every public book operation (place, cancel, match, modify,
pop) preserves the no-market-resident invariant; `place` rejects a market
order with OrderRejected leaving the book unchanged; the matcher never adds
an order id to the book for a market order (its residual is discarded); and
a limit order whose match ends Partial has its residual rested and findable
in the index under its id, with quantity equal to the quantity left. -/
theorem C8_no_market_resident :
    (∀ tp, noMarketResident (LimitOrderBook.init tp)) ∧
    (∀ (b : LimitOrderBook) (op : BookOp),
      noMarketResident b → noMarketResident (applyOp b op)) ∧
    (∀ (b : LimitOrderBook) (o : Order), o.order_type = OrderType.Market →
      b.place o = (Except.error (Failure.OrderRejected
        "Only limit orders can be placed in the orderbook"), b)) ∧
    (∀ (o : Order) (b : LimitOrderBook), o.order_type = OrderType.Market →
      ∀ i ∈ bookIds (Matcher.match_order o b).1, i ∈ bookIds b) ∧
    (∀ (o : Order) (b : LimitOrderBook), o.order_type = OrderType.Limit →
      o.trading_pair = b.trading_pair →
      (Matcher.match_order o b).2.state = MatchState.Partial →
      lookupOrder (Matcher.match_order o b).1.orders o.orderid =
        some { o with quantity := (Matcher.match_order o b).2.qty_left }) := by
  refine ⟨?_, ?_, ?_, ?_, ?_⟩
  · intro tp o ho
    simp [ordersValues, LimitOrderBook.init] at ho
  · intro b op hb
    cases op with
    | place o => exact noMarket_place b o hb
    | cancel i => exact noMarket_cancel b i hb
    | matchOrder o => exact match_order_noMarket o b hb
    | modifyQuantity i q => exact noMarket_modify hb
    | popTopBid => exact noMarket_of_values_sub ordersValues_pop_top_bid hb
    | popTopAsk => exact noMarket_of_values_sub ordersValues_pop_top_ask hb
  · intro b o hm
    unfold LimitOrderBook.place
    rw [if_pos hm]
  · intro o b hm
    unfold Matcher.match_order
    rw [hm]
    cases hopp : Matcher.get_opposite_order o.side b with
    | none =>
      dsimp only
      exact fun i hi => hi
    | some opp =>
      dsimp only
      exact do_match_bookIds o opp b Match.new
  · intro o b htype hpair hstate
    unfold Matcher.match_order at hstate ⊢
    rw [htype] at hstate ⊢
    cases hopp : Matcher.get_opposite_order o.side b with
    | none =>
      dsimp only at hstate
      rw [hopp] at hstate
      simp [Match.new] at hstate
    | some opp =>
      rw [hopp] at hstate
      dsimp only at hstate ⊢
      by_cases hlim : Matcher.is_within_price_limit o opp
      · rw [if_pos hlim] at hstate ⊢
        by_cases hpart :
            (Matcher.do_match o opp b Match.new).2.state = MatchState.Partial
        · rw [if_pos hpart]
          obtain ⟨ho, -⟩ := place_result (Matcher.do_match o opp b Match.new).1
            ⟨o.orderid, o.price, (Matcher.do_match o opp b Match.new).2.qty_left,
              o.side, OrderType.Limit, o.timestamp, o.trading_pair⟩
            (by simp)
            (by rw [do_match_pair]; exact hpair.symm)
          rw [ho]
          exact lookupOrder_insert o.orderid _ _
        · rw [if_neg hpart] at hstate
          exact absurd hstate hpart
      · rw [if_neg hlim] at hstate
        simp [Match.new] at hstate


/-- C9: placing a limit order whose id is not already anywhere in the book
and whose pair matches the book, then cancelling that id, returns the book to
exactly its previous state (hence the same multiset of resting orders), and
the cancel succeeds with an event of status Canceled. -/
theorem C9_place_cancel_roundtrip (b : LimitOrderBook) (o : Order)
    (htype : o.order_type = OrderType.Limit)
    (hpair : o.trading_pair = b.trading_pair)
    (hidx : ∀ p ∈ b.orders, p.1 ≠ o.orderid)
    (hbids : ∀ k ∈ b.bids, k.orderid ≠ o.orderid)
    (hasks : ∀ k ∈ b.asks, k.orderid ≠ o.orderid) :
    ((b.place o).2.cancel o.orderid).2 = b ∧
    ∃ e, ((b.place o).2.cancel o.orderid).1 = Except.ok e ∧
      e.status = OrderStatus.Canceled := by
  have hm : o.order_type ≠ OrderType.Market := by simp [htype]
  have hpne : ¬ b.trading_pair ≠ o.trading_pair := by simp [hpair]
  have herase : eraseOrder b.orders o.orderid = b.orders :=
    List.filter_eq_self.mpr (fun p hp => by simpa using hidx p hp)
  have horders : eraseOrder (insertOrder o.orderid o b.orders) o.orderid =
      b.orders := by
    simp only [insertOrder]
    simp only [eraseOrder] at herase ⊢
    rw [List.filter_cons_of_neg (by simp), herase, herase]
  have hqb : qremove o.to_key (qpush o.to_key b.bids) = b.bids := by
    simp only [qremove, qpush, Order.to_key]
    rw [List.filter_cons_of_neg (by simp)]
    exact List.filter_eq_self.mpr (fun k hk => by simpa using hbids k hk)
  have hqa : qremove o.to_key (qpush o.to_key b.asks) = b.asks := by
    simp only [qremove, qpush, Order.to_key]
    rw [List.filter_cons_of_neg (by simp)]
    exact List.filter_eq_self.mpr (fun k hk => by simpa using hasks k hk)
  unfold LimitOrderBook.place
  rw [if_neg hm, if_neg hpne]
  cases hs : o.side with
  | Bid =>
    dsimp only
    unfold LimitOrderBook.cancel
    dsimp only
    rw [lookupOrder_insert]
    dsimp only
    rw [hs]
    dsimp only
    rw [horders, hqb]
    exact ⟨rfl, ⟨OrderStatus.Canceled, o.orderid, ""⟩, rfl, rfl⟩
  | Ask =>
    dsimp only
    unfold LimitOrderBook.cancel
    dsimp only
    rw [lookupOrder_insert]
    dsimp only
    rw [hs]
    dsimp only
    rw [horders, hqa]
    exact ⟨rfl, ⟨OrderStatus.Canceled, o.orderid, ""⟩, rfl, rfl⟩

/-- C9 witness: placing the fresh limit bid `c9Bid` on the one-ask book
`c3Book` and cancelling it restores the book exactly. -/
theorem C9_place_cancel_roundtrip_witness :
    ((c3Book.place c9Bid).2.cancel c9Bid.orderid).2 = c3Book ∧
    ∃ e, ((c3Book.place c9Bid).2.cancel c9Bid.orderid).1 = Except.ok e ∧
      e.status = OrderStatus.Canceled :=
  C9_place_cancel_roundtrip c3Book c9Bid (by decide) (by decide) (by decide)
    (by decide) (by decide)

end Octomatch
